import Mathlib

/-!
Shallow embedding of `src/json_comparison/json_comparison.py`: the
structure counter `parse_json_structure`, the tree differ
`compare_json_structures` (inner worker `find_differences`) and the
`summarize_comparison` report builder, together with proofs about them.
-/

set_option maxHeartbeats 1000000

/-- A JSON document: object (ordered key/value association list, as a Python
dict preserves insertion order), array, or scalar (string, integer number,
boolean, null).  Numbers are modelled as integers; no property below
depends on float arithmetic. -/
inductive Json where
  | str  : String → Json
  | num  : Int → Json
  | bool : Bool → Json
  | null : Json
  | arr  : List Json → Json
  | obj  : List (String × Json) → Json

/-- True on the scalar constructors: not a dict and not a list. -/
def Json.scalar? : Json → Bool
  | .obj _ => false
  | .arr _ => false
  | _ => true

/-- Python `isinstance(node, dict)`. -/
def Json.isObj : Json → Bool
  | .obj _ => true
  | _ => false

/-- Python `isinstance(node, list)`. -/
def Json.isArr : Json → Bool
  | .arr _ => true
  | _ => false

mutual
/-- Nesting depth of a document: 1 for a scalar or an empty container, one
more than the deepest child otherwise.  Not part of the source; used to
state the range of levels its traversal touches. -/
def Json.maxDepth : Json → Nat
  | .obj kvs => 1 + maxDepthKVs kvs
  | .arr xs  => 1 + maxDepthArr xs
  | _ => 1

def maxDepthArr : List Json → Nat
  | [] => 0
  | x :: xs => max (Json.maxDepth x) (maxDepthArr xs)

def maxDepthKVs : List (String × Json) → Nat
  | [] => 0
  | kv :: rest => max (Json.maxDepth kv.2) (maxDepthKVs rest)
end

mutual
/-- The `traverse` closure of `parse_json_structure`: each visited node
appends its own level (the defaultdict of counters is modelled as the list
of levels touched, one entry per node).  A dict or list node records its
level and recurses into every value/element at `level + 1`; a scalar only
records its level. -/
def traverseNode : Json → Nat → List Nat
  | .obj kvs, level => level :: traverseKVs kvs (level + 1)
  | .arr xs, level => level :: traverseArr xs (level + 1)
  | _, level => [level]

def traverseArr : List Json → Nat → List Nat
  | [], _ => []
  | x :: xs, level => traverseNode x level ++ traverseArr xs level

def traverseKVs : List (String × Json) → Nat → List Nat
  | [], _ => []
  | kv :: rest, level => traverseNode kv.2 level ++ traverseKVs rest level
end

/-- Python `parse_json_structure`: count the nodes of each level and return
`sorted(levels.items())` — the distinct levels in ascending order, each
paired with its node count. -/
def parse_json_structure (json_data : Json) : List (Nat × Nat) :=
  let ls := traverseNode json_data 1
  (ls.dedup.mergeSort (fun a b => a ≤ b)).map (fun l => (l, ls.count l))

/-- Association-list lookup: Python's `key in d` (is the result `some`?)
and `d[key]` (the payload) on a dict.  Keys of a real dict are unique; the
first binding wins in the model. -/
def lookupKey (k : String) : List (String × Json) → Option Json
  | [] => none
  | (k', v) :: rest => if k' = k then some v else lookupKey k rest

mutual
/-- Python `==` on parsed JSON values: deep structural equality,
order-insensitive on dicts, with bool/int conflation (in Python
`True == 1` and `False == 0` hold). -/
def pyEq : Json → Json → Bool
  | .str a, .str b => a = b
  | .num a, .num b => a = b
  | .bool a, .bool b => a = b
  | .bool a, .num b => (if a then (1 : Int) else 0) = b
  | .num a, .bool b => a = (if b then (1 : Int) else 0)
  | .null, .null => true
  | .arr a, .arr b => pyEqList a b
  | .obj a, .obj b => a.length = b.length && pyEqObj a b
  | _, _ => false

def pyEqList : List Json → List Json → Bool
  | [], [] => true
  | x :: xs, y :: ys => pyEq x y && pyEqList xs ys
  | _, _ => false

/-- CPython dict equality body: every key of the left dict is present in
the right one with an equal value (the lengths are compared separately). -/
def pyEqObj : List (String × Json) → List (String × Json) → Bool
  | [], _ => true
  | (k, v) :: rest, b =>
    (match lookupKey k b with
     | some w => pyEq v w
     | none => false) && pyEqObj rest b
end

/-- Python `set(d1.keys()).union(d2.keys())`.  A Python set iterates in an
unspecified (hash-dependent) order; the model fixes one concrete order —
the keys of `d1` in dict order followed by the keys of `d2` not in `d1` —
and the effect of choosing a different order is examined separately
(`findDifferencesRev` iterates the same union reversed). -/
def unionKeys (ks1 ks2 : List String) : List String :=
  ks1 ++ ks2.filter (fun k => !ks1.contains k)

theorem sizeOf_lookupKey {k : String} {v : Json} : ∀ {kvs : List (String × Json)},
    lookupKey k kvs = some v → sizeOf v < sizeOf kvs
  | [], h => by simp [lookupKey] at h
  | (k', v') :: rest, h => by
    simp only [lookupKey] at h
    split at h
    · cases h; simp; omega
    · have := @sizeOf_lookupKey k v rest h
      simp; omega

theorem sizeOf_getElemOpt : ∀ {xs : List Json} {i : Nat} {v : Json},
    xs[i]? = some v → sizeOf v < sizeOf xs
  | x :: xs, 0, v, h => by simp at h; subst h; simp; omega
  | x :: xs, i + 1, v, h => by
    simp only [List.getElem?_cons_succ] at h
    have := sizeOf_getElemOpt h; simp; omega

/-- The `find_differences` closure of `compare_json_structures`, returning
the entries it writes into `detailed_differences` in emission order.
Case 1 (both dicts): iterate the union of the key sets; a key present on
both sides recurses at the extended path, a key present on one side only
records that side's value against the string `"Key not found"`.
Case 2 (both lists): iterate `range(max(len1, len2))`; an index valid on
both sides recurses, an index valid on one side only records that side's
element against the string `"Element not found"`.
Case 3 (anything else): record `(path, d1, d2)` iff `d1 != d2`. -/
def findDifferences : Json → Json → String → List (String × Json × Json)
  | .obj kvs1, .obj kvs2, path =>
    (unionKeys (kvs1.map Prod.fst) (kvs2.map Prod.fst)).flatMap (fun key =>
      let newPath := if path = "" then key else path ++ "/" ++ key
      match h1 : lookupKey key kvs1, h2 : lookupKey key kvs2 with
      | some v1, some v2 => findDifferences v1 v2 newPath
      | some v1, none => [(newPath, v1, .str "Key not found")]
      | none, some v2 => [(newPath, .str "Key not found", v2)]
      | none, none => [])
  | .arr xs1, .arr xs2, path =>
    (List.range (max xs1.length xs2.length)).flatMap (fun index =>
      let newPath := path ++ "[" ++ toString index ++ "]"
      match h1 : xs1[index]?, h2 : xs2[index]? with
      | some x1, some x2 => findDifferences x1 x2 newPath
      | some x1, none => [(newPath, x1, .str "Element not found")]
      | none, some x2 => [(newPath, .str "Element not found", x2)]
      | none, none => [])
  | d1, d2, path => if pyEq d1 d2 then [] else [(path, d1, d2)]
termination_by d1 _ _ => sizeOf d1
decreasing_by
  · have := sizeOf_lookupKey h1; simp; omega
  · have := sizeOf_getElemOpt h1; simp; omega

/-- Variant of `findDifferences` that iterates the key-set union in the
reversed order: a second admissible iteration order of the Python set,
used to study whether the produced mapping depends on that order. -/
def findDifferencesRev : Json → Json → String → List (String × Json × Json)
  | .obj kvs1, .obj kvs2, path =>
    (unionKeys (kvs1.map Prod.fst) (kvs2.map Prod.fst)).reverse.flatMap (fun key =>
      let newPath := if path = "" then key else path ++ "/" ++ key
      match h1 : lookupKey key kvs1, h2 : lookupKey key kvs2 with
      | some v1, some v2 => findDifferencesRev v1 v2 newPath
      | some v1, none => [(newPath, v1, .str "Key not found")]
      | none, some v2 => [(newPath, .str "Key not found", v2)]
      | none, none => [])
  | .arr xs1, .arr xs2, path =>
    (List.range (max xs1.length xs2.length)).flatMap (fun index =>
      let newPath := path ++ "[" ++ toString index ++ "]"
      match h1 : xs1[index]?, h2 : xs2[index]? with
      | some x1, some x2 => findDifferencesRev x1 x2 newPath
      | some x1, none => [(newPath, x1, .str "Element not found")]
      | none, some x2 => [(newPath, .str "Element not found", x2)]
      | none, none => [])
  | d1, d2, path => if pyEq d1 d2 then [] else [(path, d1, d2)]
termination_by d1 _ _ => sizeOf d1
decreasing_by
  · have := sizeOf_lookupKey h1; simp; omega
  · have := sizeOf_getElemOpt h1; simp; omega

/-- Python dict assignment `m[k] = v`: overwrite in place if the key
exists (keeping its position), append otherwise. -/
def dictInsert (m : List (String × Json × Json)) (k : String) (v : Json × Json) :
    List (String × Json × Json) :=
  if m.any (fun e => e.1 = k) then m.map (fun e => if e.1 = k then (k, v) else e)
  else m ++ [(k, v)]

/-- Replay a list of assignments into an (initially empty) Python dict. -/
def toDict (l : List (String × Json × Json)) : List (String × Json × Json) :=
  l.foldl (fun m e => dictInsert m e.1 e.2) []

/-- The value a string-keyed entry dict associates to `k` (its logical
content at `k`), `none` when the key is absent. -/
def dictGet (m : List (String × Json × Json)) (k : String) : Option (Json × Json) :=
  (m.find? (fun e => e.1 = k)).map (fun e => e.2)

/-- Python `compare_json_structures`: run `find_differences` from the empty
path and return the accumulated `detailed_differences` dict. -/
def compare_json_structures (json_data1 json_data2 : Json) : List (String × Json × Json) :=
  toDict (findDifferences json_data1 json_data2 "")

/-- Same, under the reversed key-iteration order. -/
def compare_json_structuresRev (json_data1 json_data2 : Json) : List (String × Json × Json) :=
  toDict (findDifferencesRev json_data1 json_data2 "")

/-- Python `next((count for l, count in structure if l == level), 0)`: the
count of the first entry at `level`, defaulting to 0. -/
def firstCountAt (s : List (Nat × Nat)) (level : Nat) : Nat :=
  match s.find? (fun p => p.1 == level) with
  | some p => p.2
  | none => 0

/-- Python `max(level for level, _ in structure)`.  The generator raises on
an empty structure (handled at the call site); on a nonempty list of
naturals the fold below is that maximum. -/
def maxLevelOf (s : List (Nat × Nat)) : Nat :=
  (s.map Prod.fst).foldl max 0

/-- The summary dict built by `summarize_comparison`: the two total node
counts, the per-level table (level, count1, count2, count1 - count2), and
the diff mapping passed through. -/
structure Summary where
  totalNodes1 : Nat
  totalNodes2 : Nat
  detailedComparison : List (Nat × Nat × Nat × Int)
  differences : List (String × Json × Json)

/-- Python `summarize_comparison`.  `max` over an empty generator raises
`ValueError`, so an empty level sequence on either side makes the call
fail before a summary is produced: this is modelled as `none`. -/
def summarize_comparison (structure1 structure2 : List (Nat × Nat))
    (differences : List (String × Json × Json)) : Option Summary :=
  if structure1.isEmpty || structure2.isEmpty then none
  else
    let total_nodes1 := (structure1.map Prod.snd).sum
    let total_nodes2 := (structure2.map Prod.snd).sum
    let max_level := max (maxLevelOf structure1) (maxLevelOf structure2)
    some ⟨total_nodes1, total_nodes2,
      (List.range' 1 max_level).map (fun level =>
        let count1 := firstCountAt structure1 level
        let count2 := firstCountAt structure2 level
        (level, count1, count2, (count1 : Int) - (count2 : Int))),
      differences⟩

/-- One step of an access path: descending into an object value by key, or
into an array element by index. -/
inductive Step where
  | key : String → Step
  | idx : Nat → Step

/-- Path extension exactly as `find_differences` builds `new_path`: a key
is joined with a slash (or stands alone when the path so far is empty), an
index is appended in brackets. -/
def extendPath (p : String) : Step → String
  | .key k => if p = "" then k else p ++ "/" ++ k
  | .idx i => p ++ "[" ++ toString i ++ "]"

/-- The structural path reached from `p` by a list of steps. -/
def pathOfSteps (p : String) : List Step → String
  | [] => p
  | s :: rest => pathOfSteps (extendPath p s) rest

/-- The two documents are identical except at exactly one scalar leaf,
reached by `steps`, where the first holds the scalar `l1` and the second
the scalar `l2` (unequal under Python `==`).  Object keys along the way
are unique, as the keys of a Python dict are. -/
inductive OneLeafDiff : Json → Json → List Step → Json → Json → Prop where
  | leaf {v1 v2 : Json} :
      v1.scalar? = true → v2.scalar? = true → pyEq v1 v2 = false →
      OneLeafDiff v1 v2 [] v1 v2
  | obj {pre post : List (String × Json)} {k : String} {v1 v2 l1 l2 : Json}
      {rest : List Step} :
      ((pre ++ (k, v1) :: post).map Prod.fst).Nodup →
      OneLeafDiff v1 v2 rest l1 l2 →
      OneLeafDiff (.obj (pre ++ (k, v1) :: post)) (.obj (pre ++ (k, v2) :: post))
        (.key k :: rest) l1 l2
  | arr {pre post : List Json} {v1 v2 l1 l2 : Json} {rest : List Step} :
      OneLeafDiff v1 v2 rest l1 l2 →
      OneLeafDiff (.arr (pre ++ v1 :: post)) (.arr (pre ++ v2 :: post))
        (.idx pre.length :: rest) l1 l2

/-- The top-level shapes of the two documents mismatch in one of the ways
the specification lists: object vs array, object vs scalar, or array vs
scalar (either way round). -/
def typeMismatch (d1 d2 : Json) : Bool :=
  (d1.isObj && d2.isArr) || (d1.isArr && d2.isObj) ||
  (d1.isObj && d2.scalar?) || (d1.scalar? && d2.isObj) ||
  (d1.isArr && d2.scalar?) || (d1.scalar? && d2.isArr)

/-! ## General helpers -/

theorem json_size_ind {motive : Json → Prop}
    (ih : ∀ d, (∀ e, sizeOf e < sizeOf d → motive e) → motive d) : ∀ d, motive d := by
  intro d
  generalize hn : sizeOf d = n
  induction n using Nat.strong_induction_on generalizing d with
  | _ n IH => subst hn; exact ih d (fun e he => IH _ he e rfl)

theorem pyEq_refl_of_scalar (d : Json) (h : d.scalar? = true) : pyEq d d = true := by
  cases d <;> simp_all [Json.scalar?, pyEq]

theorem findDifferences_self : ∀ (d : Json) (p : String), findDifferences d d p = [] := by
  intro d
  induction d using json_size_ind with
  | ih d IH =>
    intro p
    match d with
    | .obj kvs =>
      rw [findDifferences]
      simp only [List.flatMap_eq_nil_iff]
      intro key hkey
      split
      · next v1 v2 h1 h2 =>
        rw [h1] at h2; cases h2
        exact IH v1 (by have := sizeOf_lookupKey h1; simp; omega) _
      · next v1 h1 h2 => rw [h1] at h2; cases h2
      · next v2 h1 h2 => rw [h2] at h1; cases h1
      · rfl
    | .arr xs =>
      rw [findDifferences]
      simp only [List.flatMap_eq_nil_iff]
      intro i hi
      split
      · next x1 x2 h1 h2 =>
        rw [h1] at h2; cases h2
        exact IH x1 (by have := sizeOf_getElemOpt h1; simp; omega) _
      · next x1 h1 h2 => rw [h1] at h2; cases h2
      · next x2 h1 h2 => rw [h2] at h1; cases h1
      · rfl
    | .str s => rw [findDifferences] <;> simp [pyEq]
    | .num n => rw [findDifferences] <;> simp [pyEq]
    | .bool b => rw [findDifferences] <;> simp [pyEq]
    | .null => rw [findDifferences] <;> simp [pyEq]

/-! ## Claim C2 -/

/-- C2: comparing any document with itself yields an empty mapping, and an
equal (self-identical) subtree contributes no entry at any path. -/
theorem C2_diff_self_empty (d : Json) :
    compare_json_structures d d = [] ∧ ∀ p, findDifferences d d p = [] := by
  refine ⟨?_, fun p => findDifferences_self d p⟩
  unfold compare_json_structures
  rw [findDifferences_self]
  rfl

/-! ## Case-3 behaviour (type mismatches and scalars) -/

theorem findDifferences_catchall (d1 d2 : Json) (p : String)
    (hobj : ¬(d1.isObj = true ∧ d2.isObj = true))
    (harr : ¬(d1.isArr = true ∧ d2.isArr = true)) :
    findDifferences d1 d2 p = if pyEq d1 d2 then [] else [(p, d1, d2)] := by
  cases d1 <;> cases d2 <;> simp_all [Json.isObj, Json.isArr] <;> rw [findDifferences] <;> simp

theorem pyEq_false_of_typeMismatch (d1 d2 : Json) (h : typeMismatch d1 d2 = true) :
    pyEq d1 d2 = false := by
  cases d1 <;> cases d2 <;>
    simp_all [typeMismatch, Json.isObj, Json.isArr, Json.scalar?, pyEq]

theorem not_both_obj_of_typeMismatch (d1 d2 : Json) (h : typeMismatch d1 d2 = true) :
    ¬(d1.isObj = true ∧ d2.isObj = true) := by
  cases d1 <;> cases d2 <;>
    simp_all [typeMismatch, Json.isObj, Json.isArr, Json.scalar?]

theorem not_both_arr_of_typeMismatch (d1 d2 : Json) (h : typeMismatch d1 d2 = true) :
    ¬(d1.isArr = true ∧ d2.isArr = true) := by
  cases d1 <;> cases d2 <;>
    simp_all [typeMismatch, Json.isObj, Json.isArr, Json.scalar?]

theorem findDifferences_mismatch_entry (d1 d2 : Json) (p : String)
    (h : typeMismatch d1 d2 = true ∨
      (d1.scalar? = true ∧ d2.scalar? = true ∧ pyEq d1 d2 = false)) :
    findDifferences d1 d2 p = [(p, d1, d2)] := by
  rcases h with h | ⟨hs1, hs2, hne⟩
  · rw [findDifferences_catchall d1 d2 p (not_both_obj_of_typeMismatch d1 d2 h)
      (not_both_arr_of_typeMismatch d1 d2 h), pyEq_false_of_typeMismatch d1 d2 h]
    rfl
  · have hobj : ¬(d1.isObj = true ∧ d2.isObj = true) := by
      cases d1 <;> simp_all [Json.scalar?, Json.isObj]
    have harr : ¬(d1.isArr = true ∧ d2.isArr = true) := by
      cases d1 <;> simp_all [Json.scalar?, Json.isArr]
    rw [findDifferences_catchall d1 d2 p hobj harr, hne]
    rfl

/-! ## Claim C4 -/

/-- C4: at a node whose two sides have mismatched top-level types (object
vs array, object vs scalar, array vs scalar) or are unequal scalars,
`find_differences` records exactly the one flat entry `(path, d1, d2)`
holding both complete raw sub-values, and emits nothing for any
descendant of either sub-value. -/
theorem C4_mismatch_flat_entry (d1 d2 : Json) (p : String)
    (h : typeMismatch d1 d2 = true ∨
      (d1.scalar? = true ∧ d2.scalar? = true ∧ pyEq d1 d2 = false)) :
    findDifferences d1 d2 p = [(p, d1, d2)] :=
  findDifferences_mismatch_entry d1 d2 p h

/-- C4 witness: an object against a scalar at a nested path is recorded
whole, as one entry. -/
theorem C4_mismatch_flat_entry_witness :
    findDifferences (.obj [("k", .num 1)]) (.num 7) "a/b" =
      [("a/b", .obj [("k", .num 1)], .num 7)] :=
  C4_mismatch_flat_entry (.obj [("k", .num 1)]) (.num 7) "a/b" (Or.inl (by decide))

/-! ## Paths recorded by the differ -/

theorem newPathKey_suffix (p k : String) :
    ∃ s, (if p = "" then k else p ++ "/" ++ k) = p ++ s := by
  by_cases hp : p = ""
  · subst hp
    exact ⟨k, by rw [if_pos rfl, String.empty_append]⟩
  · exact ⟨"/" ++ k, by rw [if_neg hp, String.append_assoc]⟩

/-- Every entry `find_differences` emits below prefix `p` has a path that
extends `p`. -/
theorem findDifferences_path_suffix :
    ∀ (d1 d2 : Json) (p : String) (e : String × Json × Json),
      e ∈ findDifferences d1 d2 p → ∃ s, e.1 = p ++ s := by
  intro d1
  induction d1 using json_size_ind with
  | ih d1 IH =>
    intro d2 p e he
    by_cases hobj : d1.isObj = true ∧ d2.isObj = true
    · obtain ⟨kvs1, rfl⟩ : ∃ kvs, d1 = .obj kvs := by
        cases d1 <;> first | exact ⟨_, rfl⟩ | simp_all [Json.isObj]
      obtain ⟨kvs2, rfl⟩ : ∃ kvs, d2 = .obj kvs := by
        cases d2 <;> first | exact ⟨_, rfl⟩ | simp_all [Json.isObj]
      rw [findDifferences] at he
      simp only [List.mem_flatMap] at he
      obtain ⟨key, hkey, hin⟩ := he
      obtain ⟨s0, hs0⟩ := newPathKey_suffix p key
      split at hin
      · next v1 v2 h1 h2 =>
        obtain ⟨s, hs⟩ := IH v1 (by have := sizeOf_lookupKey h1; simp; omega) v2 _ e hin
        exact ⟨s0 ++ s, by rw [hs, hs0, String.append_assoc]⟩
      · next v1 h1 h2 =>
        rw [List.mem_singleton] at hin; subst hin
        exact ⟨s0, hs0⟩
      · next v2 h1 h2 =>
        rw [List.mem_singleton] at hin; subst hin
        exact ⟨s0, hs0⟩
      · cases hin
    · by_cases harr : d1.isArr = true ∧ d2.isArr = true
      · obtain ⟨xs1, rfl⟩ : ∃ xs, d1 = .arr xs := by
          cases d1 <;> first | exact ⟨_, rfl⟩ | simp_all [Json.isArr]
        obtain ⟨xs2, rfl⟩ : ∃ xs, d2 = .arr xs := by
          cases d2 <;> first | exact ⟨_, rfl⟩ | simp_all [Json.isArr]
        rw [findDifferences] at he
        simp only [List.mem_flatMap] at he
        obtain ⟨i, hi, hin⟩ := he
        split at hin
        · next x1 x2 h1 h2 =>
          obtain ⟨s, hs⟩ := IH x1 (by have := sizeOf_getElemOpt h1; simp; omega) x2 _ e hin
          exact ⟨"[" ++ toString i ++ "]" ++ s, by rw [hs]; simp [String.append_assoc]⟩
        · next x1 h1 h2 =>
          rw [List.mem_singleton] at hin; subst hin
          exact ⟨"[" ++ toString i ++ "]", by simp [String.append_assoc]⟩
        · next x2 h1 h2 =>
          rw [List.mem_singleton] at hin; subst hin
          exact ⟨"[" ++ toString i ++ "]", by simp [String.append_assoc]⟩
        · cases hin
      · rw [findDifferences_catchall d1 d2 p hobj harr] at he
        split at he
        · cases he
        · rw [List.mem_singleton] at he; subst he
          exact ⟨"", (String.append_empty p).symm⟩

/-! ## Dict replay -/

theorem mem_dictInsert_keys {acc : List (String × Json × Json)} {k : String}
    {v : Json × Json} {e : String × Json × Json} (h : e ∈ dictInsert acc k v) :
    e.1 = k ∨ e.1 ∈ acc.map Prod.fst := by
  unfold dictInsert at h
  split at h
  · obtain ⟨x, hx, hxe⟩ := List.mem_map.mp h
    split at hxe
    · subst hxe; exact Or.inl rfl
    · subst hxe; exact Or.inr (List.mem_map_of_mem _ hx)
  · rcases List.mem_append.mp h with h | h
    · exact Or.inr (List.mem_map_of_mem _ h)
    · rw [List.mem_singleton] at h; subst h; exact Or.inl rfl

theorem mem_foldl_dictInsert_keys :
    ∀ {l : List (String × Json × Json)} {acc : List (String × Json × Json)}
      {e : String × Json × Json},
      e ∈ l.foldl (fun m en => dictInsert m en.1 en.2) acc →
      e.1 ∈ acc.map Prod.fst ∨ e.1 ∈ l.map Prod.fst := by
  intro l
  induction l with
  | nil => intro acc e h; exact Or.inl (List.mem_map_of_mem _ h)
  | cons a l ihl =>
    intro acc e h
    rcases ihl h with h' | h'
    · obtain ⟨x, hx, hxe⟩ := List.mem_map.mp h'
      rcases mem_dictInsert_keys hx with h'' | h''
      · exact Or.inr (by rw [← hxe, h'']; exact List.mem_cons_self _ _)
      · exact Or.inl (by rw [← hxe]; exact h'')
    · exact Or.inr (List.mem_map.mpr (by
        obtain ⟨x, hx, hxe⟩ := List.mem_map.mp h'
        exact ⟨x, List.mem_cons_of_mem _ hx, hxe⟩))

theorem mem_toDict_keys {l : List (String × Json × Json)} {e : String × Json × Json}
    (h : e ∈ toDict l) : e.1 ∈ l.map Prod.fst := by
  rcases mem_foldl_dictInsert_keys h with h' | h'
  · cases h'
  · exact h'

/-! ## Root-level path shapes -/

theorem root_obj_entry_shape (kvs1 kvs2 : List (String × Json)) (e : String × Json × Json)
    (he : e ∈ findDifferences (.obj kvs1) (.obj kvs2) "") :
    ∃ k s, k ∈ unionKeys (kvs1.map Prod.fst) (kvs2.map Prod.fst) ∧ e.1 = k ++ s := by
  rw [findDifferences] at he
  simp only [List.mem_flatMap] at he
  obtain ⟨key, hkey, hin⟩ := he
  refine ⟨key, ?_⟩
  split at hin
  · next v1 v2 h1 h2 =>
    obtain ⟨s, hs⟩ := findDifferences_path_suffix v1 v2 _ e hin
    simp only [if_true] at hs
    exact ⟨s, hkey, hs⟩
  · next v1 h1 h2 =>
    rw [List.mem_singleton] at hin; subst hin
    exact ⟨"", hkey, by simp⟩
  · next v2 h1 h2 =>
    rw [List.mem_singleton] at hin; subst hin
    exact ⟨"", hkey, by simp⟩
  · cases hin

theorem root_arr_entry_shape (xs1 xs2 : List Json) (e : String × Json × Json)
    (he : e ∈ findDifferences (.arr xs1) (.arr xs2) "") :
    ∃ i s, i < max xs1.length xs2.length ∧ e.1 = "[" ++ toString i ++ "]" ++ s := by
  rw [findDifferences] at he
  simp only [List.mem_flatMap] at he
  obtain ⟨i, hi, hin⟩ := he
  rw [List.mem_range] at hi
  refine ⟨i, ?_⟩
  split at hin
  · next x1 x2 h1 h2 =>
    obtain ⟨s, hs⟩ := findDifferences_path_suffix x1 x2 _ e hin
    exact ⟨s, hi, by rw [hs]; simp [String.append_assoc]⟩
  · next x1 h1 h2 =>
    rw [List.mem_singleton] at hin; subst hin
    exact ⟨"", hi, by simp [String.append_assoc]⟩
  · next x2 h1 h2 =>
    rw [List.mem_singleton] at hin; subst hin
    exact ⟨"", hi, by simp [String.append_assoc]⟩
  · cases hin

/-! ## Claim C10 -/

/-- C10: a mismatch at the document root itself is recorded as a single
entry keyed by the empty string, while below an object or array root every
recorded path starts with a union key, respectively with a bracketed
index — no leading separator in either case. -/
theorem C10_root_path_shapes :
    (∀ d1 d2 : Json, (typeMismatch d1 d2 = true ∨
        (d1.scalar? = true ∧ d2.scalar? = true ∧ pyEq d1 d2 = false)) →
      compare_json_structures d1 d2 = [("", d1, d2)]) ∧
    (∀ kvs1 kvs2 e, e ∈ compare_json_structures (.obj kvs1) (.obj kvs2) →
      ∃ k s, k ∈ unionKeys (kvs1.map Prod.fst) (kvs2.map Prod.fst) ∧ e.1 = k ++ s) ∧
    (∀ xs1 xs2 e, e ∈ compare_json_structures (.arr xs1) (.arr xs2) →
      ∃ i s, i < max xs1.length xs2.length ∧ e.1 = "[" ++ toString i ++ "]" ++ s) := by
  refine ⟨?_, ?_, ?_⟩
  · intro d1 d2 h
    rw [compare_json_structures, findDifferences_mismatch_entry d1 d2 "" h]
    rfl
  · intro kvs1 kvs2 e he
    have hk := mem_toDict_keys he
    obtain ⟨e', he', he'e⟩ := List.mem_map.mp hk
    obtain ⟨k, s, hks, hpath⟩ := root_obj_entry_shape kvs1 kvs2 e' he'
    exact ⟨k, s, hks, by rw [← he'e, hpath]⟩
  · intro xs1 xs2 e he
    have hk := mem_toDict_keys he
    obtain ⟨e', he', he'e⟩ := List.mem_map.mp hk
    obtain ⟨i, s, hi, hpath⟩ := root_arr_entry_shape xs1 xs2 e' he'
    exact ⟨i, s, hi, by rw [← he'e, hpath]⟩

/-- C10 witness: an object root against a scalar root yields exactly the
empty-string-keyed entry. -/
theorem C10_root_path_shapes_witness :
    compare_json_structures (.obj []) (.num 3) = [("", .obj [], .num 3)] :=
  C10_root_path_shapes.1 (.obj []) (.num 3) (Or.inl (by decide))

/-! ## Claim C1 -/

/-- C1 counterexample: the not-found marker is the literal JSON string
`"Key not found"`.  A document that genuinely lacks the key `"a"` and a
document that legitimately maps `"a"` to the string `"Key not found"`
produce entries that are literally identical — the sentinel is
indistinguishable from a legitimate value. -/
theorem C1_sentinel_collides :
    compare_json_structures (.obj [("a", .num 5)]) (.obj []) =
      [("a", .num 5, .str "Key not found")] ∧
    compare_json_structures (.obj [("a", .num 5)]) (.obj [("a", .str "Key not found")]) =
      [("a", .num 5, .str "Key not found")] := by
  constructor
  · simp [compare_json_structures, findDifferences, unionKeys, lookupKey, toDict, dictInsert]
  · simp [compare_json_structures, findDifferences, unionKeys, lookupKey, pyEq, toDict,
      dictInsert]

/-- C1 amended: the missing side of a one-sided key or index is recorded
as the JSON string `"Key not found"` (objects), respectively
`"Element not found"` (arrays) — a value of the ordinary string type, not a
type-level distinct marker, so it can coincide with legitimate data. -/
theorem C1_sentinel_is_string (k : String) (v x : Json) :
    compare_json_structures (.obj [(k, v)]) (.obj []) = [(k, v, .str "Key not found")] ∧
    compare_json_structures (.arr [x]) (.arr []) = [("[0]", x, .str "Element not found")] := by
  constructor
  · have h : findDifferences (.obj [(k, v)]) (.obj []) "" = [(k, v, .str "Key not found")] := by
      rw [findDifferences]
      have hu : unionKeys ([(k, v)].map Prod.fst) (([] : List (String × Json)).map Prod.fst)
          = [k] := by simp [unionKeys]
      rw [hu]
      simp only [List.flatMap_cons, List.flatMap_nil, List.append_nil]
      split
      · next v1 v2 h1 h2 => simp [lookupKey] at h2
      · next v1 h1 h2 =>
        simp only [lookupKey, if_pos rfl] at h1
        cases h1; simp
      · next v2 h1 h2 => simp [lookupKey] at h2
      · next h1 h2 => simp [lookupKey] at h1
    rw [compare_json_structures, h]; rfl
  · have h : findDifferences (.arr [x]) (.arr []) "" = [("[0]", x, .str "Element not found")] := by
      rw [findDifferences]
      have hr : List.range (max ([x].length) ([] : List Json).length) = [0] := by
        simp only [List.length_cons, List.length_nil]
        decide
      rw [hr]
      simp only [List.flatMap_cons, List.flatMap_nil, List.append_nil]
      split
      · next x1 x2 h1 h2 => simp at h2
      · next x1 h1 h2 =>
        simp only [List.getElem?_cons_zero] at h1
        cases h1
        have hs : ("" : String) ++ "[" ++ toString (0 : Nat) ++ "]" = "[0]" := by decide
        rw [hs]
      · next x2 h1 h2 => simp at h2
      · next h1 h2 => simp at h1
    rw [compare_json_structures, h]; rfl

/-! ## Single-leaf differences -/

theorem unionKeys_self (ks : List String) : unionKeys ks ks = ks := by
  unfold unionKeys
  have hnil : ks.filter (fun k => !ks.contains k) = [] := by
    rw [List.filter_eq_nil_iff]
    intro k hk
    simpa using hk
  rw [hnil, List.append_nil]

theorem flatMap_eq_singleton_of_unique {α β : Type} (l : List α) (f : α → List β)
    (a : α) (res : List β) (hnd : l.Nodup) (ha : a ∈ l) (hres : f a = res)
    (hothers : ∀ b ∈ l, b ≠ a → f b = []) : l.flatMap f = res := by
  induction l with
  | nil => cases ha
  | cons x l ih =>
    rw [List.flatMap_cons]
    rcases List.mem_cons.mp ha with rfl | hal
    · have hrest : l.flatMap f = [] := List.flatMap_eq_nil_iff.mpr
        (fun b hb => hothers b (List.mem_cons_of_mem _ hb)
          (fun hba => (List.nodup_cons.mp hnd).1 (hba ▸ hb)))
      rw [hres, hrest, List.append_nil]
    · have hxa : x ≠ a := fun h => (List.nodup_cons.mp hnd).1 (h ▸ hal)
      rw [hothers x (List.mem_cons_self x l) hxa, List.nil_append]
      exact ih (List.nodup_cons.mp hnd).2 hal
        (fun b hb => hothers b (List.mem_cons_of_mem _ hb))

theorem lookupKey_append_mid (pre post : List (String × Json)) (k : String) (v : Json)
    (hk : k ∉ pre.map Prod.fst) : lookupKey k (pre ++ (k, v) :: post) = some v := by
  induction pre with
  | nil => simp [lookupKey]
  | cons p pre ih =>
    obtain ⟨pk, pv⟩ := p
    simp only [List.map_cons, List.mem_cons, not_or] at hk
    simp only [List.cons_append, lookupKey]
    rw [if_neg (fun hh => hk.1 hh.symm)]
    exact ih hk.2

theorem lookupKey_append_mid_ne (pre post : List (String × Json)) (k k' : String)
    (v1 v2 : Json) (hne : k' ≠ k) :
    lookupKey k' (pre ++ (k, v1) :: post) = lookupKey k' (pre ++ (k, v2) :: post) := by
  induction pre with
  | nil =>
    simp only [List.nil_append, lookupKey]
    rw [if_neg (Ne.symm hne), if_neg (Ne.symm hne)]
  | cons p pre ih =>
    obtain ⟨pk, pv⟩ := p
    simp only [List.cons_append, lookupKey]
    by_cases hpk : pk = k'
    · rw [if_pos hpk, if_pos hpk]
    · rw [if_neg hpk, if_neg hpk]
      exact ih

theorem getElemOpt_append_mid_ne (pre post : List Json) (v1 v2 : Json) {i : Nat}
    (h : i ≠ pre.length) :
    (pre ++ v1 :: post)[i]? = (pre ++ v2 :: post)[i]? := by
  rcases Nat.lt_or_ge i pre.length with hlt | hge
  · rw [List.getElem?_append, List.getElem?_append, if_pos hlt, if_pos hlt]
  · have hgt : pre.length < i := Nat.lt_of_le_of_ne hge (Ne.symm h)
    rw [List.getElem?_append_right hge, List.getElem?_append_right hge]
    have hsub : i - pre.length = (i - pre.length - 1) + 1 := by omega
    rw [hsub]
    simp [List.getElem?_cons_succ]

theorem getElemOpt_append_mid (pre post : List Json) (v : Json) :
    (pre ++ v :: post)[pre.length]? = some v := by
  rw [List.getElem?_append_right (Nat.le_refl _)]
  simp

/-- Where the two documents differ at exactly one scalar leaf,
`find_differences` emits exactly the one entry for that leaf, keyed by the
extension of the current path with the access path of the leaf. -/
theorem findDifferences_oneLeaf {d1 d2 : Json} {steps : List Step} {l1 l2 : Json}
    (h : OneLeafDiff d1 d2 steps l1 l2) :
    ∀ p, findDifferences d1 d2 p = [(pathOfSteps p steps, l1, l2)] := by
  induction h with
  | leaf hs1 hs2 hne =>
    intro p
    rw [findDifferences_mismatch_entry _ _ p (Or.inr ⟨hs1, hs2, hne⟩)]
    rfl
  | @obj pre post k v1 v2 l1 l2 rest hnd hrec ih =>
    intro p
    rw [findDifferences]
    have hkeys1 : (pre ++ (k, v1) :: post).map Prod.fst
        = pre.map Prod.fst ++ k :: post.map Prod.fst := by simp
    have hkeys2 : (pre ++ (k, v2) :: post).map Prod.fst
        = pre.map Prod.fst ++ k :: post.map Prod.fst := by simp
    rw [hkeys1, hkeys2, unionKeys_self]
    have hnd' : (pre.map Prod.fst ++ k :: post.map Prod.fst).Nodup := hkeys1 ▸ hnd
    have hkpre : k ∉ pre.map Prod.fst := by
      intro hkin
      exact List.disjoint_of_nodup_append hnd' hkin (List.mem_cons_self k _)
    have hl1 : lookupKey k (pre ++ (k, v1) :: post) = some v1 :=
      lookupKey_append_mid pre post k v1 hkpre
    have hl2 : lookupKey k (pre ++ (k, v2) :: post) = some v2 :=
      lookupKey_append_mid pre post k v2 hkpre
    apply flatMap_eq_singleton_of_unique _ _ k _ hnd'
      (by exact List.mem_append.mpr (Or.inr (List.mem_cons_self k _)))
    · dsimp only
      split
      · next w1 w2 h1 h2 =>
        rw [hl1] at h1; cases h1
        rw [hl2] at h2; cases h2
        rw [ih]
        simp [pathOfSteps, extendPath]
      · next w1 h1 h2 => rw [hl2] at h2; cases h2
      · next w2 h1 h2 => rw [hl1] at h1; cases h1
      · next h1 h2 => rw [hl1] at h1; cases h1
    · intro k' hk' hne
      dsimp only
      have heq := lookupKey_append_mid_ne pre post k k' v1 v2 hne
      split
      · next w1 w2 h1 h2 =>
        rw [h1, h2] at heq; cases heq
        exact findDifferences_self w1 _
      · next w1 h1 h2 => rw [h1, h2] at heq; cases heq
      · next w2 h1 h2 => rw [h1, h2] at heq; cases heq
      · next h1 h2 => rfl
  | @arr pre post v1 v2 l1 l2 rest hrec ih =>
    intro p
    rw [findDifferences]
    have hlen : (pre ++ v1 :: post).length = (pre ++ v2 :: post).length := by simp
    have hmax : max (pre ++ v1 :: post).length (pre ++ v2 :: post).length
        = pre.length + post.length + 1 := by simp; omega
    rw [hmax]
    apply flatMap_eq_singleton_of_unique _ _ pre.length _ (List.nodup_range _)
      (by rw [List.mem_range]; omega)
    · dsimp only
      split
      · next w1 w2 h1 h2 =>
        rw [getElemOpt_append_mid pre post v1] at h1; cases h1
        rw [getElemOpt_append_mid pre post v2] at h2; cases h2
        rw [ih]
        simp [pathOfSteps, extendPath]
      · next w1 h1 h2 => rw [getElemOpt_append_mid pre post v2] at h2; cases h2
      · next w2 h1 h2 => rw [getElemOpt_append_mid pre post v1] at h1; cases h1
      · next h1 h2 => rw [getElemOpt_append_mid pre post v1] at h1; cases h1
    · intro i hi hne
      dsimp only
      have heq := getElemOpt_append_mid_ne pre post v1 v2 hne
      split
      · next w1 w2 h1 h2 =>
        rw [h1, h2] at heq; cases heq
        exact findDifferences_self w1 _
      · next w1 h1 h2 => rw [h1, h2] at heq; cases heq
      · next w2 h1 h2 => rw [h1, h2] at heq; cases heq
      · next h1 h2 => rfl

/-! ## Claim C3 -/

/-- C3: for two documents identical except at exactly one scalar leaf, the
returned mapping has exactly one entry, keyed by the structural path of
that leaf (object keys joined with a slash, array positions bracketed),
holding the two differing leaf values. -/
theorem C3_one_leaf_one_entry {d1 d2 : Json} {steps : List Step} {l1 l2 : Json}
    (h : OneLeafDiff d1 d2 steps l1 l2) :
    compare_json_structures d1 d2 = [(pathOfSteps "" steps, l1, l2)] := by
  rw [compare_json_structures, findDifferences_oneLeaf h ""]
  rfl

/-- C3 witness: two nested objects differing at the leaf `x/y`. -/
theorem C3_one_leaf_one_entry_witness :
    compare_json_structures (.obj [("x", .obj [("y", .num 1)])])
      (.obj [("x", .obj [("y", .num 2)])]) = [("x/y", .num 1, .num 2)] := by
  have hleaf : OneLeafDiff (.num 1) (.num 2) [] (.num 1) (.num 2) :=
    OneLeafDiff.leaf (by decide) (by decide) (by decide)
  have h1 : OneLeafDiff (.obj [("y", .num 1)]) (.obj [("y", .num 2)])
      [.key "y"] (.num 1) (.num 2) :=
    @OneLeafDiff.obj [] [] "y" (.num 1) (.num 2) (.num 1) (.num 2) [] (by decide) hleaf
  have h2 : OneLeafDiff (.obj [("x", .obj [("y", .num 1)])])
      (.obj [("x", .obj [("y", .num 2)])]) [.key "x", .key "y"] (.num 1) (.num 2) :=
    @OneLeafDiff.obj [] [] "x" (.obj [("y", .num 1)]) (.obj [("y", .num 2)])
      (.num 1) (.num 2) [.key "y"] (by decide) h1
  have hp : pathOfSteps "" [Step.key "x", Step.key "y"] = "x/y" := by decide
  rw [C3_one_leaf_one_entry h2, hp]

/-! ## Levels touched by the structure counter -/

mutual
theorem mem_traverse : ∀ (d : Json) (L x : Nat),
    x ∈ traverseNode d L ↔ (L ≤ x ∧ x < L + d.maxDepth)
  | .obj kvs, L, x => by
    rw [show traverseNode (.obj kvs) L = L :: traverseKVs kvs (L + 1) from rfl,
      List.mem_cons, mem_traverseKVs kvs (L + 1) x,
      show Json.maxDepth (.obj kvs) = 1 + maxDepthKVs kvs from rfl]
    omega
  | .arr xs, L, x => by
    rw [show traverseNode (.arr xs) L = L :: traverseArr xs (L + 1) from rfl,
      List.mem_cons, mem_traverseArr xs (L + 1) x,
      show Json.maxDepth (.arr xs) = 1 + maxDepthArr xs from rfl]
    omega
  | .str s, L, x => by
    rw [show traverseNode (.str s) L = [L] from rfl, List.mem_singleton,
      show Json.maxDepth (.str s) = 1 from rfl]
    omega
  | .num n, L, x => by
    rw [show traverseNode (.num n) L = [L] from rfl, List.mem_singleton,
      show Json.maxDepth (.num n) = 1 from rfl]
    omega
  | .bool b, L, x => by
    rw [show traverseNode (.bool b) L = [L] from rfl, List.mem_singleton,
      show Json.maxDepth (.bool b) = 1 from rfl]
    omega
  | .null, L, x => by
    rw [show traverseNode (.null) L = [L] from rfl, List.mem_singleton,
      show Json.maxDepth (.null) = 1 from rfl]
    omega

theorem mem_traverseArr : ∀ (xs : List Json) (L x : Nat),
    x ∈ traverseArr xs L ↔ (L ≤ x ∧ x < L + maxDepthArr xs)
  | [], L, x => by simp [traverseArr, maxDepthArr]
  | y :: ys, L, x => by
    rw [show traverseArr (y :: ys) L = traverseNode y L ++ traverseArr ys L from rfl,
      List.mem_append, mem_traverse y L x, mem_traverseArr ys L x,
      show maxDepthArr (y :: ys) = max y.maxDepth (maxDepthArr ys) from rfl]
    omega

theorem mem_traverseKVs : ∀ (kvs : List (String × Json)) (L x : Nat),
    x ∈ traverseKVs kvs L ↔ (L ≤ x ∧ x < L + maxDepthKVs kvs)
  | [], L, x => by simp [traverseKVs, maxDepthKVs]
  | kv :: rest, L, x => by
    rw [show traverseKVs (kv :: rest) L = traverseNode kv.2 L ++ traverseKVs rest L from rfl,
      List.mem_append, mem_traverse kv.2 L x, mem_traverseKVs rest L x,
      show maxDepthKVs (kv :: rest) = max kv.2.maxDepth (maxDepthKVs rest) from rfl]
    omega
end

theorem maxDepth_pos (d : Json) : 1 ≤ d.maxDepth := by
  cases d <;> simp [Json.maxDepth]

theorem count_traverse_self (d : Json) (L : Nat) : (traverseNode d L).count L = 1 := by
  cases d with
  | obj kvs =>
    rw [show traverseNode (.obj kvs) L = L :: traverseKVs kvs (L + 1) from rfl, List.count_cons]
    have hz : (traverseKVs kvs (L + 1)).count L = 0 :=
      List.count_eq_zero_of_not_mem (fun hmem => by
        have := (mem_traverseKVs kvs (L + 1) L).mp hmem; omega)
    simp [hz]
  | arr xs =>
    rw [show traverseNode (.arr xs) L = L :: traverseArr xs (L + 1) from rfl, List.count_cons]
    have hz : (traverseArr xs (L + 1)).count L = 0 :=
      List.count_eq_zero_of_not_mem (fun hmem => by
        have := (mem_traverseArr xs (L + 1) L).mp hmem; omega)
    simp [hz]
  | str s => rw [show traverseNode (.str s) L = [L] from rfl]; simp
  | num n => rw [show traverseNode (.num n) L = [L] from rfl]; simp
  | bool b => rw [show traverseNode (.bool b) L = [L] from rfl]; simp
  | null => rw [show traverseNode .null L = [L] from rfl]; simp

theorem dedup_traverse_mergeSort (d : Json) :
    ((traverseNode d 1).dedup).mergeSort (fun a b => a ≤ b) = List.range' 1 d.maxDepth := by
  have hperm : (((traverseNode d 1).dedup).mergeSort (fun a b => a ≤ b)).Perm
      (List.range' 1 d.maxDepth) := by
    refine (List.mergeSort_perm _ _).trans ?_
    refine List.perm_of_nodup_nodup_toFinset_eq (List.nodup_dedup _)
      (List.nodup_range' 1 d.maxDepth) ?_
    ext a
    simp only [List.mem_toFinset, List.mem_dedup, List.mem_range'_1]
    rw [mem_traverse d 1 a]
  have hsorted : List.Pairwise (fun a b : Nat => (decide (a ≤ b)) = true)
      (((traverseNode d 1).dedup).mergeSort (fun a b => a ≤ b)) :=
    List.sorted_mergeSort
      (fun a b c h1 h2 => by simp only [decide_eq_true_eq] at *; omega)
      (fun a b => by simp only [Bool.or_eq_true, decide_eq_true_eq]; omega)
      ((traverseNode d 1).dedup)
  have hs1 : List.Sorted (· ≤ ·) (((traverseNode d 1).dedup).mergeSort (fun a b => a ≤ b)) :=
    hsorted.imp (fun h => by simpa using h)
  have hs2 : List.Sorted (· ≤ ·) (List.range' 1 d.maxDepth) :=
    (List.pairwise_lt_range' 1 d.maxDepth).imp Nat.le_of_lt
  exact List.eq_of_perm_of_sorted hperm hs1 hs2

theorem parse_json_structure_eq (d : Json) :
    parse_json_structure d
      = (List.range' 1 d.maxDepth).map (fun l => (l, (traverseNode d 1).count l)) := by
  simp only [parse_json_structure]
  rw [dedup_traverse_mergeSort]

/-! ## Claim C5 -/

/-- C5: for every document the parsed structure is a non-empty sequence,
strictly ascending in depth, with every depth at least 1, every count
positive, and the first record exactly `(1, 1)`. -/
theorem C5_parse_structure_shape (d : Json) :
    parse_json_structure d ≠ [] ∧
    ((parse_json_structure d).map Prod.fst).Chain' (· < ·) ∧
    (∀ e ∈ parse_json_structure d, 1 ≤ e.1 ∧ 0 < e.2) ∧
    (parse_json_structure d).head? = some (1, 1) := by
  have hD := maxDepth_pos d
  rw [parse_json_structure_eq]
  refine ⟨?_, ?_, ?_, ?_⟩
  · simp only [ne_eq, List.map_eq_nil_iff]
    intro hnil
    have hlen := congrArg List.length hnil
    rw [List.length_range'] at hlen
    simp at hlen
    omega
  · rw [List.map_map]
    have : (Prod.fst ∘ fun l => (l, (traverseNode d 1).count l)) = id := rfl
    rw [this, List.map_id]
    exact (List.pairwise_lt_range' 1 d.maxDepth).chain'
  · intro e he
    obtain ⟨l, hl, rfl⟩ := List.mem_map.mp he
    rw [List.mem_range'_1] at hl
    refine ⟨hl.1, ?_⟩
    rw [List.count_pos_iff, mem_traverse d 1 l]
    omega
  · obtain ⟨n, hn⟩ : ∃ n, d.maxDepth = n + 1 := ⟨d.maxDepth - 1, by omega⟩
    rw [hn, List.range'_succ, List.map_cons, List.head?_cons, count_traverse_self]

/-! ## Claim C9 -/

/-- C9: the depths present in the parsed structure form the contiguous
range from 1 to the document's depth, with no gaps. -/
theorem C9_levels_contiguous (d : Json) :
    (parse_json_structure d).map Prod.fst = List.range' 1 d.maxDepth := by
  rw [parse_json_structure_eq, List.map_map]
  have : (Prod.fst ∘ fun l => (l, (traverseNode d 1).count l)) = id := rfl
  rw [this, List.map_id]

/-! ## Claim C6 -/

/-- C6: with an empty level sequence on either side the summarizer fails
(the Python `max` over an empty generator raises, modelled as `none`)
rather than returning any summary. -/
theorem C6_summarize_empty_fails (s1 s2 : List (Nat × Nat))
    (diffs : List (String × Json × Json)) (h : s1 = [] ∨ s2 = []) :
    summarize_comparison s1 s2 diffs = none := by
  unfold summarize_comparison
  rcases h with rfl | rfl <;> simp

/-- C6 witness: an empty first level sequence is rejected. -/
theorem C6_summarize_empty_fails_witness :
    summarize_comparison [] [(1, 1)] [] = none :=
  C6_summarize_empty_fails [] [(1, 1)] [] (Or.inl rfl)

/-! ## Claim C7 -/

theorem firstCountAt_not_mem {s : List (Nat × Nat)} {l : Nat}
    (h : l ∉ s.map Prod.fst) : firstCountAt s l = 0 := by
  unfold firstCountAt
  have hf : s.find? (fun p => p.1 == l) = none := by
    rw [List.find?_eq_none]
    intro x hx
    simp only [beq_iff_eq]
    intro hxl
    exact h (List.mem_map.mpr ⟨x, hx, hxl⟩)
  rw [hf]

/-- C7: on non-empty level sequences the summarizer returns a summary whose
totals are the sums of the per-level counts, whose detailed table has
exactly one record per level from 1 to the larger maximum depth in
ascending order — counts looked up with default 0, difference equal to
`count1 - count2` — and whose diff mapping is passed through unchanged. -/
theorem C7_summarize_shape (s1 s2 : List (Nat × Nat))
    (diffs : List (String × Json × Json)) (h1 : s1 ≠ []) (h2 : s2 ≠ []) :
    ∃ S, summarize_comparison s1 s2 diffs = some S ∧
      S.totalNodes1 = (s1.map Prod.snd).sum ∧
      S.totalNodes2 = (s2.map Prod.snd).sum ∧
      S.detailedComparison.map (fun r => r.1)
        = List.range' 1 (max (maxLevelOf s1) (maxLevelOf s2)) ∧
      (∀ r ∈ S.detailedComparison,
        r.2.1 = firstCountAt s1 r.1 ∧
        r.2.2.1 = firstCountAt s2 r.1 ∧
        r.2.2.2 = (r.2.1 : Int) - (r.2.2.1 : Int) ∧
        (r.1 ∉ s1.map Prod.fst → r.2.1 = 0) ∧
        (r.1 ∉ s2.map Prod.fst → r.2.2.1 = 0)) ∧
      S.differences = diffs := by
  unfold summarize_comparison
  rw [if_neg (by simp [List.isEmpty_iff, h1, h2])]
  refine ⟨_, rfl, rfl, rfl, ?_, ?_, rfl⟩
  · rw [List.map_map]
    have hcomp : ((fun r : Nat × Nat × Nat × Int => r.1) ∘ fun level =>
        (level, firstCountAt s1 level, firstCountAt s2 level,
          (firstCountAt s1 level : Int) - (firstCountAt s2 level : Int))) = id := rfl
    rw [hcomp, List.map_id]
  · intro r hr
    obtain ⟨level, hl, rfl⟩ := List.mem_map.mp hr
    exact ⟨rfl, rfl, rfl, fun hnm => firstCountAt_not_mem hnm,
      fun hnm => firstCountAt_not_mem hnm⟩

/-- C7 witness: a concrete summary exists for non-empty inputs. -/
theorem C7_summarize_shape_witness :
    (summarize_comparison [(1, 1)] [(1, 1), (2, 5)] []).isSome = true := by
  obtain ⟨S, hS, -⟩ := C7_summarize_shape [(1, 1)] [(1, 1), (2, 5)] []
    (by decide) (by decide)
  rw [hS]; rfl

/-! ## Dict content and key iteration order -/

theorem keys_unique_val : ∀ {l : List (String × Json × Json)},
    (l.map Prod.fst).Nodup → ∀ {k : String} {v w : Json × Json},
    (k, v) ∈ l → (k, w) ∈ l → v = w := by
  intro l
  induction l with
  | nil => intro _ _ _ _ hv; cases hv
  | cons e l ih =>
    intro hnd k v w hv hw
    rw [List.map_cons, List.nodup_cons] at hnd
    rcases List.mem_cons.mp hv with hv1 | hv2
    · rcases List.mem_cons.mp hw with hw1 | hw2
      · rw [← hv1] at hw1
        injection hw1 with _ h
        exact h.symm
      · exfalso
        apply hnd.1
        have he1 : e.1 = k := by rw [← hv1]
        rw [he1]
        exact List.mem_map_of_mem Prod.fst hw2
    · rcases List.mem_cons.mp hw with hw1 | hw2
      · exfalso
        apply hnd.1
        have he1 : e.1 = k := by rw [← hw1]
        rw [he1]
        exact List.mem_map_of_mem Prod.fst hv2
      · exact ih hnd.2 hv2 hw2

theorem dictGet_eq_some_iff {l : List (String × Json × Json)}
    (hnd : (l.map Prod.fst).Nodup) (k : String) (v : Json × Json) :
    dictGet l k = some v ↔ (k, v) ∈ l := by
  unfold dictGet
  constructor
  · intro h
    obtain ⟨e, he, hev⟩ := Option.map_eq_some'.mp h
    have hp := List.find?_some he
    have hm := List.mem_of_find?_eq_some he
    simp only [decide_eq_true_eq] at hp
    have hek : e = (k, v) := by
      obtain ⟨e1, e2⟩ := e
      simp only at hp hev
      rw [hp, hev]
    rw [← hek]
    exact hm
  · intro h
    have hsome : (l.find? (fun e => e.1 = k)).isSome := by
      rw [List.find?_isSome]
      exact ⟨(k, v), h, by simp⟩
    obtain ⟨e, he⟩ := Option.isSome_iff_exists.mp hsome
    have hp := List.find?_some he
    simp only [decide_eq_true_eq] at hp
    have hm := List.mem_of_find?_eq_some he
    have hm' : (k, e.2) ∈ l := by
      rw [← hp]
      simpa using hm
    have hv : e.2 = v := keys_unique_val hnd hm' h
    rw [he]
    simp [hv]

theorem dictGet_eq_none_iff (l : List (String × Json × Json)) (k : String) :
    dictGet l k = none ↔ k ∉ l.map Prod.fst := by
  unfold dictGet
  rw [Option.map_eq_none', List.find?_eq_none]
  constructor
  · intro h hk
    obtain ⟨e, he, hek⟩ := List.mem_map.mp hk
    exact absurd (by simpa using hek) (h e he)
  · intro h e he
    simp only [decide_eq_true_eq]
    intro hek
    exact h (List.mem_map.mpr ⟨e, he, hek⟩)

theorem dictGet_perm {l1 l2 : List (String × Json × Json)} (hp : l1.Perm l2)
    (hnd : (l2.map Prod.fst).Nodup) (k : String) : dictGet l1 k = dictGet l2 k := by
  have hnd1 : (l1.map Prod.fst).Nodup := ((hp.map Prod.fst).nodup_iff).mpr hnd
  cases hg : dictGet l2 k with
  | some v =>
    rw [dictGet_eq_some_iff hnd1 k v]
    exact hp.mem_iff.mpr ((dictGet_eq_some_iff hnd k v).mp hg)
  | none =>
    rw [dictGet_eq_none_iff]
    intro hk
    exact ((dictGet_eq_none_iff l2 k).mp hg) (((hp.map Prod.fst).mem_iff).mp hk)

theorem foldl_dictInsert_eq_append : ∀ (l acc : List (String × Json × Json)),
    ((acc ++ l).map Prod.fst).Nodup →
    l.foldl (fun m e => dictInsert m e.1 e.2) acc = acc ++ l := by
  intro l
  induction l with
  | nil => intro acc _; simp
  | cons e l ih =>
    intro acc h
    rw [List.foldl_cons]
    have hdisj : (acc.map Prod.fst).Disjoint ((e :: l).map Prod.fst) := by
      rw [List.map_append] at h
      exact List.disjoint_of_nodup_append h
    have hnotin : ¬(acc.any (fun x => x.1 = e.1) = true) := by
      simp only [List.any_eq_true, decide_eq_true_eq]
      rintro ⟨x, hx, hxe⟩
      exact hdisj (hxe ▸ List.mem_map_of_mem Prod.fst hx)
        (by rw [List.map_cons]; exact List.mem_cons_self _ _)
    have hins : dictInsert acc e.1 e.2 = acc ++ [e] := by
      unfold dictInsert
      rw [if_neg hnotin]
    have hre : (acc ++ [e]) ++ l = acc ++ e :: l := by simp
    rw [hins, ih (acc ++ [e]) (by rw [hre]; exact h)]
    exact hre

theorem toDict_eq_self {l : List (String × Json × Json)}
    (hnd : (l.map Prod.fst).Nodup) : toDict l = l := by
  unfold toDict
  have := foldl_dictInsert_eq_append l [] (by simpa using hnd)
  simpa using this

theorem findDifferencesRev_catchall (d1 d2 : Json) (p : String)
    (hobj : ¬(d1.isObj = true ∧ d2.isObj = true))
    (harr : ¬(d1.isArr = true ∧ d2.isArr = true)) :
    findDifferencesRev d1 d2 p = if pyEq d1 d2 then [] else [(p, d1, d2)] := by
  cases d1 <;> cases d2 <;> simp_all [Json.isObj, Json.isArr] <;>
    rw [findDifferencesRev] <;> simp

/-- Reversing the key-iteration order permutes the emitted entries but
never changes which entries are emitted. -/
theorem findDifferencesRev_perm : ∀ (d1 d2 : Json) (p : String),
    (findDifferencesRev d1 d2 p).Perm (findDifferences d1 d2 p) := by
  intro d1
  induction d1 using json_size_ind with
  | ih d1 IH =>
    intro d2 p
    by_cases hobj : d1.isObj = true ∧ d2.isObj = true
    · obtain ⟨kvs1, rfl⟩ : ∃ kvs, d1 = .obj kvs := by
        cases d1 <;> first | exact ⟨_, rfl⟩ | simp_all [Json.isObj]
      obtain ⟨kvs2, rfl⟩ : ∃ kvs, d2 = .obj kvs := by
        cases d2 <;> first | exact ⟨_, rfl⟩ | simp_all [Json.isObj]
      rw [findDifferencesRev, findDifferences]
      refine (List.Perm.flatMap_right _ (List.reverse_perm _)).trans ?_
      refine List.Perm.flatMap_left _ (fun key hk => ?_)
      split
      all_goals split
      all_goals try exact List.Perm.refl _
      all_goals rename_i w1 w2 hh1 hh2
      all_goals exact IH w1 (by have := sizeOf_lookupKey hh1; simp; omega) w2 _
    · by_cases harr : d1.isArr = true ∧ d2.isArr = true
      · obtain ⟨xs1, rfl⟩ : ∃ xs, d1 = .arr xs := by
          cases d1 <;> first | exact ⟨_, rfl⟩ | simp_all [Json.isArr]
        obtain ⟨xs2, rfl⟩ : ∃ xs, d2 = .arr xs := by
          cases d2 <;> first | exact ⟨_, rfl⟩ | simp_all [Json.isArr]
        rw [findDifferencesRev, findDifferences]
        refine List.Perm.flatMap_left _ (fun i hi => ?_)
        split
        all_goals try exact List.Perm.refl _
        all_goals rename_i y1 y2 hh1 hh2
        all_goals exact IH y1 (by have := sizeOf_getElemOpt hh1; simp; omega) y2 _
      · rw [findDifferencesRev_catchall d1 d2 p hobj harr,
          findDifferences_catchall d1 d2 p hobj harr]

/-! ## Claim C8 -/

/-- C8 counterexample: two structural locations can render to the same
path string (the top-level key `"a/b"` and the member `b` of the object
under key `"a"`).  Both runs emit entries for both locations, but the dict
keeps only the last write at the shared path, so iterating the key-set
union in the reversed order yields a mapping with different logical
content on the same pair of documents. -/
theorem C8_order_dependent_counterexample :
    compare_json_structuresRev
        (.obj [("a/b", .num 1), ("a", .obj [("b", .num 2)])])
        (.obj [("a/b", .num 9), ("a", .obj [("b", .num 8)])]) ≠
      compare_json_structures
        (.obj [("a/b", .num 1), ("a", .obj [("b", .num 2)])])
        (.obj [("a/b", .num 9), ("a", .obj [("b", .num 8)])]) := by
  have hc : compare_json_structures
      (.obj [("a/b", .num 1), ("a", .obj [("b", .num 2)])])
      (.obj [("a/b", .num 9), ("a", .obj [("b", .num 8)])])
      = [("a/b", .num 2, .num 8)] := by
    simp [compare_json_structures, findDifferences, unionKeys, lookupKey, pyEq,
      toDict, dictInsert]
  have hr : compare_json_structuresRev
      (.obj [("a/b", .num 1), ("a", .obj [("b", .num 2)])])
      (.obj [("a/b", .num 9), ("a", .obj [("b", .num 8)])])
      = [("a/b", .num 1, .num 9)] := by
    simp [compare_json_structuresRev, findDifferencesRev, unionKeys, lookupKey, pyEq,
      toDict, dictInsert]
  rw [hc, hr]
  simp

/-- C8 amended: reordering the key-set iteration permutes the multiset of
emitted (path, value-pair) entries but never changes it, and the final
mapping has the same logical content under both orders whenever all
emitted paths are distinct; only when two structural locations collide on
the same rendered path (as in the counterexample) can the surviving value
depend on the iteration order. -/
theorem C8_order_content (d1 d2 : Json) :
    (∀ p, (findDifferencesRev d1 d2 p).Perm (findDifferences d1 d2 p)) ∧
    (((findDifferences d1 d2 "").map Prod.fst).Nodup →
      ∀ k, dictGet (compare_json_structuresRev d1 d2) k
        = dictGet (compare_json_structures d1 d2) k) := by
  refine ⟨fun p => findDifferencesRev_perm d1 d2 p, fun hnd k => ?_⟩
  have hperm := findDifferencesRev_perm d1 d2 ""
  have hndr : ((findDifferencesRev d1 d2 "").map Prod.fst).Nodup :=
    ((hperm.map Prod.fst).nodup_iff).mpr hnd
  rw [compare_json_structuresRev, compare_json_structures,
    toDict_eq_self hndr, toDict_eq_self hnd]
  exact dictGet_perm hperm hnd k

/-- C8 witness: on collision-free documents both iteration orders agree. -/
theorem C8_order_content_witness :
    dictGet (compare_json_structuresRev (.obj [("a", .num 1), ("b", .num 2)]) (.obj [])) "a"
      = dictGet (compare_json_structures (.obj [("a", .num 1), ("b", .num 2)]) (.obj [])) "a" := by
  have hev : findDifferences (.obj [("a", .num 1), ("b", .num 2)]) (.obj []) ""
      = [("a", .num 1, .str "Key not found"), ("b", .num 2, .str "Key not found")] := by
    simp [findDifferences, unionKeys, lookupKey]
  exact (C8_order_content (.obj [("a", .num 1), ("b", .num 2)]) (.obj [])).2
    (by rw [hev]; decide) "a"
